import Mathlib

/-!
Shallow embedding of the shilld repository's aggregation build step
(`buildWebsite` in the build script) and of the browser extension's
list-retrieval logic (`ext/background.js`), together with proofs of the
specification's claims about them.

JavaScript values flowing through the pipeline are modelled by a `Json`
inductive; JS `undefined` and `null` are conflated into `Json.null`
(the source only distinguishes them through `??` and truthiness, where
both behave identically).  JSON numbers appearing in the input records
are modelled as integers; derived statistics that JS computes with
float division (mean, median) are modelled exactly in `ℚ`.
-/

namespace Shilld

/-- A JSON / JavaScript value.  `null` stands for both `null` and
`undefined`. -/
inductive Json where
  | null : Json
  | bool (b : Bool) : Json
  | num (n : Int) : Json
  | str (s : String) : Json
  | arr (elems : List Json) : Json
  | obj (fields : List (String × Json)) : Json
deriving Repr

mutual

/-- Decidable equality on `Json` (the deriving handler does not support
nested inductives, so it is spelled out). -/
def Json.decEq : (a b : Json) → Decidable (a = b)
  | .null, .null => .isTrue rfl
  | .bool x, .bool y =>
      if h : x = y then .isTrue (congrArg Json.bool h)
      else .isFalse (fun e => h (Json.bool.inj e))
  | .num x, .num y =>
      if h : x = y then .isTrue (congrArg Json.num h)
      else .isFalse (fun e => h (Json.num.inj e))
  | .str x, .str y =>
      if h : x = y then .isTrue (congrArg Json.str h)
      else .isFalse (fun e => h (Json.str.inj e))
  | .arr x, .arr y =>
      match Json.decEqList x y with
      | .isTrue h => .isTrue (congrArg Json.arr h)
      | .isFalse h => .isFalse (fun e => h (Json.arr.inj e))
  | .obj x, .obj y =>
      match Json.decEqFields x y with
      | .isTrue h => .isTrue (congrArg Json.obj h)
      | .isFalse h => .isFalse (fun e => h (Json.obj.inj e))
  | .null, .bool _ => .isFalse (fun e => Json.noConfusion e)
  | .null, .num _ => .isFalse (fun e => Json.noConfusion e)
  | .null, .str _ => .isFalse (fun e => Json.noConfusion e)
  | .null, .arr _ => .isFalse (fun e => Json.noConfusion e)
  | .null, .obj _ => .isFalse (fun e => Json.noConfusion e)
  | .bool _, .null => .isFalse (fun e => Json.noConfusion e)
  | .bool _, .num _ => .isFalse (fun e => Json.noConfusion e)
  | .bool _, .str _ => .isFalse (fun e => Json.noConfusion e)
  | .bool _, .arr _ => .isFalse (fun e => Json.noConfusion e)
  | .bool _, .obj _ => .isFalse (fun e => Json.noConfusion e)
  | .num _, .null => .isFalse (fun e => Json.noConfusion e)
  | .num _, .bool _ => .isFalse (fun e => Json.noConfusion e)
  | .num _, .str _ => .isFalse (fun e => Json.noConfusion e)
  | .num _, .arr _ => .isFalse (fun e => Json.noConfusion e)
  | .num _, .obj _ => .isFalse (fun e => Json.noConfusion e)
  | .str _, .null => .isFalse (fun e => Json.noConfusion e)
  | .str _, .bool _ => .isFalse (fun e => Json.noConfusion e)
  | .str _, .num _ => .isFalse (fun e => Json.noConfusion e)
  | .str _, .arr _ => .isFalse (fun e => Json.noConfusion e)
  | .str _, .obj _ => .isFalse (fun e => Json.noConfusion e)
  | .arr _, .null => .isFalse (fun e => Json.noConfusion e)
  | .arr _, .bool _ => .isFalse (fun e => Json.noConfusion e)
  | .arr _, .num _ => .isFalse (fun e => Json.noConfusion e)
  | .arr _, .str _ => .isFalse (fun e => Json.noConfusion e)
  | .arr _, .obj _ => .isFalse (fun e => Json.noConfusion e)
  | .obj _, .null => .isFalse (fun e => Json.noConfusion e)
  | .obj _, .bool _ => .isFalse (fun e => Json.noConfusion e)
  | .obj _, .num _ => .isFalse (fun e => Json.noConfusion e)
  | .obj _, .str _ => .isFalse (fun e => Json.noConfusion e)
  | .obj _, .arr _ => .isFalse (fun e => Json.noConfusion e)

/-- Decidable equality on lists of `Json`. -/
def Json.decEqList : (a b : List Json) → Decidable (a = b)
  | [], [] => .isTrue rfl
  | [], _ :: _ => .isFalse (fun e => List.noConfusion e)
  | _ :: _, [] => .isFalse (fun e => List.noConfusion e)
  | x :: xs, y :: ys =>
      match Json.decEq x y with
      | .isFalse h => .isFalse (fun e => h (List.cons.inj e).1)
      | .isTrue h1 =>
          match Json.decEqList xs ys with
          | .isTrue h2 => .isTrue (by rw [h1, h2])
          | .isFalse h2 => .isFalse (fun e => h2 (List.cons.inj e).2)

/-- Decidable equality on `Json` object field lists. -/
def Json.decEqFields : (a b : List (String × Json)) → Decidable (a = b)
  | [], [] => .isTrue rfl
  | [], _ :: _ => .isFalse (fun e => List.noConfusion e)
  | _ :: _, [] => .isFalse (fun e => List.noConfusion e)
  | (k1, v1) :: xs, (k2, v2) :: ys =>
      if hk : k1 = k2 then
        match Json.decEq v1 v2 with
        | .isFalse h =>
            .isFalse (fun e => h (congrArg Prod.snd (List.cons.inj e).1))
        | .isTrue h1 =>
            match Json.decEqFields xs ys with
            | .isTrue h2 => .isTrue (by rw [hk, h1, h2])
            | .isFalse h2 => .isFalse (fun e => h2 (List.cons.inj e).2)
      else .isFalse (fun e => hk (congrArg Prod.fst (List.cons.inj e).1))

end

instance : DecidableEq Json := Json.decEq

/-- JS truthiness: `null`/`undefined`, `false`, `0` and `""` are falsy;
every object and array is truthy. -/
def Json.truthy : Json → Bool
  | .null => false
  | .bool b => b
  | .num n => n != 0
  | .str s => s != ""
  | .arr _ => true
  | .obj _ => true

/-- JS property access `o.k`: a missing key, or access on a non-object,
yields `undefined` (our `null`). -/
def Json.get : Json → String → Json
  | .obj fields, k => ((fields.lookup k).getD .null)
  | _, _ => .null

/-- JS array indexing `a[i]`; out of bounds or non-array yields
`undefined` (our `null`). -/
def Json.idx : Json → Nat → Json
  | .arr l, i => (l.get? i).getD .null
  | _, _ => .null

/-- `Array.isArray`. -/
def Json.isArr : Json → Bool
  | .arr _ => true
  | _ => false

/-- JS `a && b`. -/
def jsAnd (a b : Json) : Json := if a.truthy then b else a

/-- JS `a || b`. -/
def jsOr (a b : Json) : Json := if a.truthy then a else b

/-- JS `a ?? b` (with `undefined` conflated into `null`). -/
def jsNullish (a b : Json) : Json := if a = .null then b else a

mutual

/-- JS `String(x)` coercion, restricted to the value shapes of this
pipeline. -/
def jsToString : Json → String
  | .null => "null"
  | .bool true => "true"
  | .bool false => "false"
  | .num n => toString n
  | .str s => s
  | .arr l => jsToStringList l
  | .obj _ => "[object Object]"

/-- JS array-to-string: elements joined with `,`, with `null` and
`undefined` elements rendered empty. -/
def jsToStringList : List Json → String
  | [] => ""
  | [x] => (match x with | .null => "" | y => jsToString y)
  | x :: xs =>
      (match x with | .null => "" | y => jsToString y) ++ "," ++ jsToStringList xs

end

/-- JS `toLowerCase()` (character-wise; implemented over the character
list so that it evaluates by kernel reduction). -/
def toLowerStr (s : String) : String := ⟨s.data.map Char.toLower⟩

/-- JS `trim()`: strip leading and trailing whitespace. -/
def trimStr (s : String) : String :=
  ⟨((s.data.dropWhile Char.isWhitespace).reverse.dropWhile Char.isWhitespace).reverse⟩

/-- JS `s.startsWith(p)`. -/
def startsWithStr (s p : String) : Bool := s.data.take p.data.length == p.data

/-- JS `s.slice(n)` for a character count `n`. -/
def dropStr (s : String) (n : Nat) : String := ⟨s.data.drop n⟩

/-- JS `String.prototype.startsWith("@")` + `slice(1)`, and the build
script's `replace(/^@/, '')`: both strip exactly one leading `@`. -/
def stripOneAt (s : String) : String := if startsWithStr s "@" then dropStr s 1 else s

/-- `hostname.replace(/^www\., '')`: strip one leading `www.`. -/
def stripWww (s : String) : String := if startsWithStr s "www." then dropStr s 4 else s

/-- `s.split("://")` on the character level (left-to-right scan, as JS
`String.prototype.split` and Lean's `splitOn` both do). -/
def schemeSplit : List Char → List Char → List (List Char)
  | [], acc => [acc.reverse]
  | ':' :: '/' :: '/' :: rest, acc => acc.reverse :: schemeSplit rest []
  | c :: rest, acc => schemeSplit rest (c :: acc)

/-- The characters after the last `@`, or the whole list when there is
none (WHATWG authority parsing: userinfo ends at the last `@`). -/
def afterLastAt (l : List Char) : List Char :=
  (l.reverse.takeWhile (fun c => !(c == '@'))).reverse

/-- Model of the platform builtin `new URL(s).hostname` (with the
try/catch around it: `none` models the constructor throwing): after
`<scheme>://`, the authority runs to the first `/`, `?` or `#`; an
optional `userinfo@` part ends at the authority's last `@`; the
hostname is what remains before an optional `:port`, lower-cased.  No
scheme or an empty hostname is a parse failure.  WHATWG IPv4/IDN
normalization and strict invalid-character rejection are not modelled;
no theorem's conclusion depends on particular hostname values. -/
def urlHostname (s : String) : Option String :=
  match schemeSplit s.data [] with
  | scheme :: rest :: _ =>
      if scheme.isEmpty then none
      else
        let authority := rest.takeWhile (fun c => !(c == '/' || c == '?' || c == '#'))
        let host := (afterLastAt authority).takeWhile (fun c => !(c == ':'))
        if host.isEmpty then none else some (toLowerStr ⟨host⟩)
  | _ => none

/-! ## The build script's aggregation step (`buildWebsite`)

Translated from the build script: the loop over `web/shills/*.json`
files, the statistics accumulator, the fallback seeding, and the
finalization of the statistics document.  Filesystem reads are modelled
by passing the directory as a list of `InputFile`s (a `none` content
models a file on which `JSON.parse` throws); filesystem writes are
modelled as the values written (`BuildResult`).  The wall-clock
`generated_at` timestamp is not modelled. -/

/-- The minimal per-account shape pushed into `accounts` by the loop
(`AccountBasic` in the source).  `username` is the extracted string; the
other fields hold the raw JS values the source assigns (which need not
be strings). -/
structure AccountBasic where
  username : String
  name : Json
  image : Json
  bio : Json
  id : Json
  affiliation : Json
  subscription_type : Json
  url : Json
  verified : Json
deriving DecidableEq, Repr

/-- `String(raw.username || '').replace(/^@/, '')`. -/
def usernameOf (raw : Json) : String :=
  stripOneAt (jsToString (jsOr (raw.get "username") (.str "")))

/-- `raw.url ?? (raw.entities && raw.entities.url &&
Array.isArray(raw.entities.url.urls) &&
raw.entities.url.urls[0]?.expanded_url) ?? null`. -/
def extractUrl (raw : Json) : Json :=
  let e := raw.get "entities"
  let eu := e.get "url"
  let urls := eu.get "urls"
  let chain := jsAnd e (jsAnd eu (jsAnd (.bool urls.isArr)
    (match urls.idx 0 with | .null => .null | v => v.get "expanded_url")))
  jsNullish (raw.get "url") (jsNullish chain .null)

/-- One iteration of the loader: extract the record from a parsed file,
or `none` for the `if (!username) continue;` skip. -/
def mkAccount (raw : Json) : Option AccountBasic :=
  let username := usernameOf raw
  if username = "" then none
  else some {
    username := username
    name := jsOr (raw.get "name") (.str username)
    image := jsOr (jsOr (raw.get "image") (raw.get "profile_image_url"))
      (.str ("https://unavatar.io/twitter/" ++ username))
    bio := jsOr (jsOr (raw.get "bio") (raw.get "description"))
      (.str ("Bio for @" ++ username ++ "."))
    id := raw.get "id"
    affiliation := raw.get "affiliation"
    subscription_type := raw.get "subscription_type"
    url := extractUrl raw
    verified := match raw.get "verified" with | .bool b => .bool b | _ => .null }

/-- The `totals` block of the statistics accumulator. -/
structure Totals where
  accounts : Nat
  affiliated : Nat
  independent : Nat
  verified_true : Nat
  verified_false : Nat
  free_accounts : Nat
  with_proofs : Nat
deriving DecidableEq, Repr

/-- The `followers` summary block.  `average` and `median`, which JS
computes with float division, are modelled exactly in `ℚ`. -/
structure FollowersSummary where
  count_available : Nat
  min : Option Int
  max : Option Int
  average : Option ℚ
  median : Option ℚ
deriving DecidableEq, Repr

/-- The `Stats` document (`_calculated_stats.json`), with the
`generated_at` wall-clock timestamp omitted.  The `Record<string,
number>` maps are modelled as association lists in insertion
(first-encounter) order; `jsEntries` below reproduces the
`Object.entries` enumeration order over them, which hoists canonical
array-index keys ahead of the insertion order. -/
structure Stats where
  totals : Totals
  subscription_distribution : List (String × Nat)
  affiliation_counts : List (String × Nat)
  url_host_counts : List (String × Nat)
  followers : FollowersSummary
  top_affiliations : List (String × Nat)
  top_url_hosts : List (String × Nat)
deriving DecidableEq, Repr

/-- The initial accumulator (source lines building the `stats` value). -/
def initStats : Stats :=
  { totals := { accounts := 0, affiliated := 0, independent := 0, verified_true := 0,
                verified_false := 0, free_accounts := 0, with_proofs := 0 }
    subscription_distribution := []
    affiliation_counts := []
    url_host_counts := []
    followers := { count_available := 0, min := none, max := none, average := none, median := none }
    top_affiliations := []
    top_url_hosts := [] }

/-- `m[k] = (m[k] || 0) + 1` on a JS object used as a counter map: an
existing key keeps its position, a new key is appended (insertion
order). -/
def bump (m : List (String × Nat)) (k : String) : List (String × Nat) :=
  match m with
  | [] => [(k, 1)]
  | (k', c) :: rest => if k' = k then (k', c + 1) :: rest else (k', c) :: bump rest k

/-- `typeof x === 'object'` (true for objects, arrays and `null`). -/
def Json.typeofObject : Json → Bool
  | .obj _ => true
  | .arr _ => true
  | .null => true
  | _ => false

/-- Label derivation for an affiliated record (the body of
`if (affiliation) { ... }` in the accumulator): prefer the trimmed
`description`, else the hostname of `affiliation.url` with `www.`
stripped (label left unset if `new URL` throws); an unset or empty
label becomes `"unknown"` via `label = label || 'unknown'`. -/
def affiliationLabel (affiliation : Json) : String :=
  let label : Option String :=
    if affiliation.typeofObject && affiliation.truthy then
      let d := affiliation.get "description"
      if d.truthy && (trimStr (jsToString d) != "") then some (trimStr (jsToString d))
      else if (affiliation.get "url").truthy then
        match urlHostname (jsToString (affiliation.get "url")) with
        | some h => some (stripWww h)
        | none => none
      else none
    else none
  match label with
  | some s => if s = "" then "unknown" else s
  | none => "unknown"

/-- `raw?.public_metrics?.followers_count` when it is a (finite)
number. -/
def followerSample (raw : Json) : Option Int :=
  match (raw.get "public_metrics").get "followers_count" with
  | .num n => some n
  | _ => none

/-- `Array.isArray(raw?.proofs) && raw.proofs.length > 0`. -/
def hasProofs (raw : Json) : Bool :=
  match raw.get "proofs" with
  | .arr (_ :: _) => true
  | _ => false

/-- The `--- Stats accumulation ---` block run once per valid record. -/
def statsStep (s : Stats) (raw : Json) (a : AccountBasic) : Stats :=
  let isAff := a.affiliation.truthy
  let t := s.totals
  let t := { t with accounts := t.accounts + 1,
                    affiliated := if isAff then t.affiliated + 1 else t.affiliated,
                    independent := if isAff then t.independent else t.independent + 1 }
  let affCounts :=
    if isAff then bump s.affiliation_counts (affiliationLabel a.affiliation)
    else s.affiliation_counts
  let sub := if a.subscription_type.truthy then jsToString a.subscription_type else "unknown"
  let subDist := bump s.subscription_distribution sub
  let t := { t with free_accounts := if sub = "none" then t.free_accounts + 1 else t.free_accounts }
  let t := { t with verified_true := if a.verified = Json.bool true then t.verified_true + 1 else t.verified_true,
                    verified_false := if a.verified = Json.bool false then t.verified_false + 1 else t.verified_false }
  let hostCounts :=
    if a.url.truthy then
      match urlHostname (jsToString a.url) with
      | some h => if stripWww h ≠ "" then bump s.url_host_counts (stripWww h) else s.url_host_counts
      | none => s.url_host_counts
    else s.url_host_counts
  let t := { t with with_proofs := if hasProofs raw then t.with_proofs + 1 else t.with_proofs }
  { s with totals := t, affiliation_counts := affCounts,
           subscription_distribution := subDist, url_host_counts := hostCounts }

/-- One file of the input directory listing; `content = none` models a
file on which `JSON.parse` (or the surrounding I/O) throws. -/
structure InputFile where
  name : String
  content : Option Json
deriving DecidableEq, Repr

/-- The mutable state threaded through the per-file loop. -/
structure BuildState where
  accounts : List AccountBasic
  stats : Stats
  samples : List Int
  writes : List (String × Json)
  diags : List String
deriving DecidableEq, Repr

/-- The loop's catch-branch log line. -/
def skipDiag (f : String) : String := "⚠️  Skipping invalid shill file " ++ f

def initState : BuildState :=
  { accounts := [], stats := initStats, samples := [], writes := [], diags := [] }

/-- One iteration of `for (const f of files) { try { ... } catch ... }`:
a file that throws is logged; a file whose extracted username is empty
is skipped silently (`continue`); a valid file pushes its record, copies
the source file to the per-account artifact path, and accumulates
statistics. -/
def processFile (st : BuildState) (f : InputFile) : BuildState :=
  match f.content with
  | none => { st with diags := st.diags ++ [skipDiag f.name] }
  | some raw =>
    match mkAccount raw with
    | none => st
    | some a =>
      { accounts := st.accounts ++ [a]
        writes := st.writes ++ [(a.username, raw)]
        stats := statsStep st.stats raw a
        samples := st.samples ++ (followerSample raw).toList
        diags := st.diags }

/-- `followerSamples.sort((a, b) => a - b)`: the unique ascending
reordering of the samples (JS `Array.prototype.sort` is stable, and
equal integers are indistinguishable). -/
def sortedSamples (l : List Int) : List Int := l.insertionSort (· ≤ ·)

/-- Finalization of the `followers` block (`if (followerSamples.length)
{ ... }`). -/
def finalizeFollowers (samples : List Int) : FollowersSummary :=
  if samples.length = 0 then
    { count_available := 0, min := none, max := none, average := none, median := none }
  else
    let s := sortedSamples samples
    let sum : Int := s.foldl (· + ·) 0
    let n := samples.length
    let median : ℚ :=
      if n % 2 = 1 then ((s.getD ((n - 1) / 2) 0 : Int) : ℚ)
      else (((s.getD (n / 2 - 1) 0 : Int) : ℚ) + ((s.getD (n / 2) 0 : Int) : ℚ)) / 2
    { count_available := n
      min := s.head?
      max := s.getLast?
      average := some ((sum : ℚ) / (n : ℚ))
      median := some median }

/-- The order in which the comparator `(a, b) => b[1] - a[1]` puts
entries: count non-increasing. -/
def countGe (x y : String × Nat) : Prop := y.2 ≤ x.2

instance : DecidableRel countGe := fun x y => Nat.decLe y.2 x.2

instance : IsTotal (String × Nat) countGe :=
  ⟨fun x y => (Nat.le_total y.2 x.2).elim Or.inl Or.inr⟩

instance : IsTrans (String × Nat) countGe :=
  ⟨fun _ _ _ h1 h2 => le_trans h2 h1⟩

/-- The numeric value of a digit string (no sign handling; callers
check the digits first). -/
def digitsVal (l : List Char) : Nat :=
  l.foldl (fun acc c => acc * 10 + (c.toNat - 48)) 0

/-- ECMAScript array-index key test: a non-empty canonical decimal
string (no leading zero except `"0"` itself) whose value is below
`2^32 - 1`.  Such keys are enumerated before all other string keys. -/
def isArrayIndexKey (s : String) : Bool :=
  !s.data.isEmpty && s.data.all Char.isDigit &&
  (s.data.length == 1 || s.data.head? != some '0') &&
  digitsVal s.data < 4294967295

/-- Numeric order on array-index keys, for their enumeration order. -/
def idxLe (x y : String × Nat) : Prop := digitsVal x.1.data ≤ digitsVal y.1.data

instance : DecidableRel idxLe := fun x y => Nat.decLe (digitsVal x.1.data) (digitsVal y.1.data)

/-- `Object.entries(m)`: ECMAScript enumerates canonical array-index
keys first, in ascending numeric order, and only then the remaining
string keys in insertion order. -/
def jsEntries (m : List (String × Nat)) : List (String × Nat) :=
  (m.filter (fun e => isArrayIndexKey e.1)).insertionSort idxLe
    ++ m.filter (fun e => !isArrayIndexKey e.1)

/-- `Object.entries(m).sort((a, b) => b[1] - a[1]).slice(0, 20)`: the
stable sort by count descending over the enumeration order, truncated
to 20.  (A stable sort's output is unique given the comparator, so the
stable `List.insertionSort` models JS's stable `Array.prototype.sort`.) -/
def topN (m : List (String × Nat)) : List (String × Nat) :=
  ((jsEntries m).insertionSort countGe).take 20

/-- Final statistics document: followers summary and top-20 lists filled
in. -/
def finalizeStats (s : Stats) (samples : List Int) : Stats :=
  { s with followers := finalizeFollowers samples,
           top_affiliations := topN s.affiliation_counts,
           top_url_hosts := topN s.url_host_counts }

/-- The `// Fallbacks if no per-user files found` block: usernames from
`ext/shills.json` (a bare array or `{ usernames }`; a parse failure
falls back to the three hardcoded seeds), normalized and enriched into
minimal records. -/
def fallbackAccounts (extShills : Option Json) : List AccountBasic :=
  let base : List Json :=
    match extShills with
    | some raw =>
        match raw with
        | .arr l => l
        | _ => if raw.truthy && (raw.get "usernames").isArr then
                 (match raw.get "usernames" with | .arr l => l | _ => [])
               else []
    | none => [.str "atitty_", .str "eddyXBT", .str "MediaGiraffes"]
  base.map (fun u =>
    let username := stripOneAt (jsToString u)
    { username := username
      name := .str username
      image := .str ("https://unavatar.io/twitter/" ++ username)
      bio := .str ("Bio for @" ++ username ++ ".")
      id := .null, affiliation := .null, subscription_type := .null
      url := .null, verified := .null })

/-- The placeholder per-account file written in the fallback path
(`{ ...acc, proofs: [ ... ] }`). -/
def accountPlaceholder (a : AccountBasic) (today : String) : Json :=
  .obj [("username", .str a.username), ("name", a.name), ("image", a.image), ("bio", a.bio),
        ("proofs", .arr [.obj [("name", .str "Placeholder proof"), ("date", .str today),
          ("description", .str ("Replace with real references for @" ++ a.username ++ ".")),
          ("urls", .arr [.str ("https://x.com/" ++ a.username)])]])]

/-- The loop body of the `if (!stats.totals.accounts &&
accounts.length)` inference block. -/
def inferStep (s : Stats) (a : AccountBasic) : Stats :=
  let t := s.totals
  let t := if a.affiliation.truthy then { t with affiliated := t.affiliated + 1 }
           else { t with independent := t.independent + 1 }
  let sub := if a.subscription_type.truthy then jsToString a.subscription_type else "unknown"
  let dist := bump s.subscription_distribution sub
  let t := if sub = "none" then { t with free_accounts := t.free_accounts + 1 } else t
  let t := if a.verified = Json.bool true then { t with verified_true := t.verified_true + 1 }
           else if a.verified = Json.bool false then { t with verified_false := t.verified_false + 1 }
           else t
  { s with totals := t, subscription_distribution := dist }

/-- `if (!stats.totals.accounts && accounts.length) { ... }`: infer
minimal statistics from the account records when no raw file was
parsed. -/
def inferStats (s : Stats) (accounts : List AccountBasic) : Stats :=
  if s.totals.accounts = 0 ∧ accounts.length ≠ 0 then
    accounts.foldl inferStep { s with totals := { s.totals with accounts := accounts.length } }
  else s

/-- Everything the aggregation step writes: the combined listing
(`_all.json`), the lower-cased identifier list (`shills.json`, written
identically to the site and extension copies), the statistics document,
the per-account detail artifacts as (identifier, content) pairs, and the
logged skip diagnostics. -/
structure BuildResult where
  accounts : List AccountBasic
  usernames : List String
  stats : Stats
  perAccountWrites : List (String × Json)
  diags : List String
deriving DecidableEq, Repr

/-- The aggregation-and-statistics step of `buildWebsite`, as a function
of the input directory listing, the current `ext/shills.json` content
(`none` models an unreadable file) and today's date string. -/
def buildWebsite (files : List InputFile) (extShills : Option Json) (today : String) :
    BuildResult :=
  let st := files.foldl processFile initState
  let fellBack := st.accounts.isEmpty
  let accounts := if fellBack then fallbackAccounts extShills else st.accounts
  let writes := if fellBack then accounts.map (fun a => (a.username, accountPlaceholder a today))
                else st.writes
  let usernames := accounts.map (fun a => toLowerStr a.username)
  let stats := inferStats st.stats accounts
  let stats := finalizeStats stats st.samples
  { accounts := accounts, usernames := usernames, stats := stats,
    perAccountWrites := writes, diags := st.diags }

/-! ## The extension's list retrieval (`ext/background.js`) -/

/-- `TTL_MS = 5 * 24 * 60 * 60 * 1000` (5 days). -/
def TTL_MS : Nat := 5 * 24 * 60 * 60 * 1000

/-- `normalizeUsername`: falsy values map to `""`; otherwise coerce to
string, trim, strip one leading `@`, lower-case. -/
def normalizeUsername (u : Json) : String :=
  if !u.truthy then "" else toLowerStr (stripOneAt (trimStr (jsToString u)))

/-- The elements of a JSON array (else `[]`). -/
def Json.elems : Json → List Json
  | .arr l => l
  | _ => []

/-- `normalizeList`: accept `{ accounts: [{ username }] }`,
`{ usernames: [...] }` or a bare array, normalize every entry and drop
falsy (empty) results; any other shape yields `[]`. -/
def normalizeList (data : Json) : List String :=
  if data.truthy && (data.get "accounts").isArr then
    (((data.get "accounts").elems.map (fun a => jsAnd a (a.get "username"))).map
      normalizeUsername).filter (fun s => s ≠ "")
  else
    match data with
    | .arr l => (l.map normalizeUsername).filter (fun s => s ≠ "")
    | d => if d.truthy && (d.get "usernames").isArr then
             ((d.get "usernames").elems.map normalizeUsername).filter (fun s => s ≠ "")
           else []

/-- The extension's persisted cache (`chrome.storage.local`): a missing
`CACHE_KEY` reads as `[]` and a missing `CACHE_TS_KEY` as `0`, exactly
as `stored[k] || default` produces. -/
structure ExtState where
  cached : List String
  ts : Nat
deriving DecidableEq, Repr

/-- What one call of `getShills` produces: the returned list, whether a
network request was attempted, and the cache state afterwards. -/
structure GetShillsOutcome where
  usernames : List String
  fetchAttempted : Bool
  state : ExtState
deriving DecidableEq, Repr

/-- `getShills()`, with the effects made explicit: `now` is
`Date.now()`; `remote = some j` models `fetchRemote` succeeding with
body `j`, `none` models it throwing (network or parse failure);
`bundled = some j` models the packaged `shills.json` parsing to `j`,
`none` models `fetchLocalFallback` throwing (which returns `[]`). -/
def getShills (st : ExtState) (now : Nat) (remote : Option Json) (bundled : Option Json) :
    GetShillsOutcome :=
  let cached := st.cached
  let age := now - st.ts
  if cached.length ≠ 0 ∧ age < TTL_MS then
    { usernames := cached, fetchAttempted := false, state := st }
  else
    match remote with
    | some j =>
        let list := normalizeList j
        { usernames := list, fetchAttempted := true, state := { cached := list, ts := now } }
    | none =>
        if cached.length ≠ 0 then
          { usernames := cached, fetchAttempted := true, state := st }
        else
          let fallback := match bundled with | some j => normalizeList j | none => []
          { usernames := fallback, fetchAttempted := true,
            state := if fallback.length ≠ 0 then { cached := fallback, ts := now } else st }

/-! ## Helper definitions for the claims -/

/-- The record a file contributes to the listing (`none` when the file
throws or has an empty username). -/
def fileAccount (f : InputFile) : Option AccountBasic := f.content.bind mkAccount

/-- The per-account artifact write a file contributes. -/
def fileWrite (f : InputFile) : Option (String × Json) :=
  f.content.bind fun raw => (mkAccount raw).map fun a => (a.username, raw)

/-- The follower sample a file contributes. -/
def fileSample (f : InputFile) : Option Int :=
  f.content.bind fun raw => if (mkAccount raw).isSome then followerSample raw else none

/-- The skip diagnostic a file contributes (only files whose parse
throws produce one). -/
def fileDiag (f : InputFile) : Option String :=
  match f.content with
  | none => some (skipDiag f.name)
  | some _ => none

/-- Total of all counts in a counter map. -/
def sumCounts (m : List (String × Nat)) : Nat := (m.map Prod.snd).sum

/-- Modelled from the spec: "present if the `affiliation` field is
non-null and structurally non-empty" — an empty object, empty array or
empty string is structurally empty. -/
def structurallyNonEmpty : Json → Bool
  | .null => false
  | .obj [] => false
  | .arr [] => false
  | .str "" => false
  | _ => true

/-- Modelled from the spec: the follower-count summary in the spec's
words — "compute count, min, max, arithmetic mean, and median (for
even-length sorted sample, average the two central values; for
odd-length, the exact central value)", computed over the collected
sample list; with zero samples everything but the count is null. -/
def specFollowersSummary (samples : List Int) : FollowersSummary :=
  if samples = [] then
    { count_available := 0, min := none, max := none, average := none, median := none }
  else
    let sorted := sortedSamples samples
    let n := samples.length
    { count_available := n
      min := samples.min?
      max := samples.max?
      average := some ((samples.sum : ℚ) / (n : ℚ))
      median := some (if n % 2 = 1 then ((sorted.getD ((n - 1) / 2) 0 : Int) : ℚ)
        else (((sorted.getD (n / 2 - 1) 0 : Int) : ℚ) + ((sorted.getD (n / 2) 0 : Int) : ℚ)) / 2) }

/-- "A record equal in all fields": the parsed artifact carries exactly
the record's field values. -/
def rawMatchesAccount (raw : Json) (a : AccountBasic) : Prop :=
  raw.get "username" = .str a.username ∧ raw.get "name" = a.name ∧
  raw.get "image" = a.image ∧ raw.get "bio" = a.bio ∧ raw.get "id" = a.id ∧
  raw.get "affiliation" = a.affiliation ∧
  raw.get "subscription_type" = a.subscription_type ∧
  raw.get "url" = a.url ∧ raw.get "verified" = a.verified

instance (raw : Json) (a : AccountBasic) : Decidable (rawMatchesAccount raw a) := by
  unfold rawMatchesAccount; infer_instance

/-! ## General lemmas -/

theorem charLowerIdem (c : Char) : c.toLower.toLower = c.toLower := by
  have key : ∀ n : Nat, 65 ≤ n → n ≤ 90 → (Char.ofNat (n + 32)).toNat = n + 32 := by
    intro n h1 h2
    have hv : Nat.isValidChar (n + 32) := Or.inl (by omega)
    rw [Char.ofNat, dif_pos hv]
    simp [Char.ofNatAux, Char.toNat, UInt32.toNat, BitVec.toNat_ofNatLt]
  unfold Char.toLower
  by_cases h : 65 ≤ c.toNat ∧ c.toNat ≤ 90
  · rw [if_pos h, if_neg]
    rw [key c.toNat h.1 h.2]
    omega
  · rw [if_neg h, if_neg h]

theorem toLowerStr_idem (s : String) : toLowerStr (toLowerStr s) = toLowerStr s := by
  show String.mk (((s.data.map Char.toLower) : List Char).map Char.toLower) = _
  rw [List.map_map]
  exact congrArg String.mk (List.map_congr_left (fun c _ => charLowerIdem c))

/-! ## Fold characterizations of the per-file loop -/

theorem processFile_accounts (st : BuildState) (f : InputFile) :
    (processFile st f).accounts = st.accounts ++ (fileAccount f).toList := by
  obtain ⟨nm, c⟩ := f
  cases c with
  | none => simp [processFile, fileAccount]
  | some raw =>
      cases h : mkAccount raw with
      | none => simp [processFile, fileAccount, h]
      | some a => simp [processFile, fileAccount, h]

theorem processFile_writes (st : BuildState) (f : InputFile) :
    (processFile st f).writes = st.writes ++ (fileWrite f).toList := by
  obtain ⟨nm, c⟩ := f
  cases c with
  | none => simp [processFile, fileWrite]
  | some raw =>
      cases h : mkAccount raw with
      | none => simp [processFile, fileWrite, h]
      | some a => simp [processFile, fileWrite, h]

theorem processFile_samples (st : BuildState) (f : InputFile) :
    (processFile st f).samples = st.samples ++ (fileSample f).toList := by
  obtain ⟨nm, c⟩ := f
  cases c with
  | none => simp [processFile, fileSample]
  | some raw =>
      cases h : mkAccount raw with
      | none => simp [processFile, fileSample, h]
      | some a => simp [processFile, fileSample, h]

theorem processFile_diags (st : BuildState) (f : InputFile) :
    (processFile st f).diags = st.diags ++ (fileDiag f).toList := by
  obtain ⟨nm, c⟩ := f
  cases c with
  | none => simp [processFile, fileDiag]
  | some raw =>
      cases h : mkAccount raw with
      | none => simp [processFile, fileDiag, h]
      | some a => simp [processFile, fileDiag, h]

theorem foldl_processFile_accounts (files : List InputFile) (st : BuildState) :
    (files.foldl processFile st).accounts = st.accounts ++ files.filterMap fileAccount := by
  induction files generalizing st with
  | nil => simp
  | cons f t ih =>
      rw [List.foldl_cons, ih, List.filterMap_cons]
      cases h : fileAccount f with
      | none => simp [processFile_accounts, h]
      | some a => simp [processFile_accounts, h]

theorem foldl_processFile_writes (files : List InputFile) (st : BuildState) :
    (files.foldl processFile st).writes = st.writes ++ files.filterMap fileWrite := by
  induction files generalizing st with
  | nil => simp
  | cons f t ih =>
      rw [List.foldl_cons, ih, List.filterMap_cons]
      cases h : fileWrite f with
      | none => simp [processFile_writes, h]
      | some a => simp [processFile_writes, h]

theorem foldl_processFile_samples (files : List InputFile) (st : BuildState) :
    (files.foldl processFile st).samples = st.samples ++ files.filterMap fileSample := by
  induction files generalizing st with
  | nil => simp
  | cons f t ih =>
      rw [List.foldl_cons, ih, List.filterMap_cons]
      cases h : fileSample f with
      | none => simp [processFile_samples, h]
      | some a => simp [processFile_samples, h]

theorem foldl_processFile_diags (files : List InputFile) (st : BuildState) :
    (files.foldl processFile st).diags = st.diags ++ files.filterMap fileDiag := by
  induction files generalizing st with
  | nil => simp
  | cons f t ih =>
      rw [List.foldl_cons, ih, List.filterMap_cons]
      cases h : fileDiag f with
      | none => simp [processFile_diags, h]
      | some a => simp [processFile_diags, h]

/-! ## Statistics invariants of the loop -/

theorem sumCounts_bump (m : List (String × Nat)) (k : String) :
    sumCounts (bump m k) = sumCounts m + 1 := by
  induction m with
  | nil => simp [bump, sumCounts]
  | cons p t ih =>
      obtain ⟨k', c⟩ := p
      by_cases h : k' = k
      · simp [bump, h, sumCounts]
        omega
      · simp only [bump, if_neg h, sumCounts, List.map_cons, List.sum_cons] at *
        omega

theorem statsStep_totals (s : Stats) (raw : Json) (a : AccountBasic) :
    ((statsStep s raw a).totals.accounts = s.totals.accounts + 1) ∧
    ((statsStep s raw a).totals.affiliated
       = s.totals.affiliated + (if a.affiliation.truthy then 1 else 0)) ∧
    ((statsStep s raw a).totals.independent
       = s.totals.independent + (if a.affiliation.truthy then 0 else 1)) ∧
    (sumCounts (statsStep s raw a).affiliation_counts
       = sumCounts s.affiliation_counts + (if a.affiliation.truthy then 1 else 0)) := by
  by_cases h : a.affiliation.truthy <;>
    simp [statsStep, h, sumCounts_bump]

theorem foldl_processFile_stats (files : List InputFile) (st : BuildState) :
    ((files.foldl processFile st).stats.totals.accounts
       = st.stats.totals.accounts + (files.filterMap fileAccount).length) ∧
    ((files.foldl processFile st).stats.totals.affiliated
       = st.stats.totals.affiliated
          + (files.filterMap fileAccount).countP (fun a => a.affiliation.truthy)) ∧
    ((files.foldl processFile st).stats.totals.independent
       = st.stats.totals.independent
          + (files.filterMap fileAccount).countP (fun a => !a.affiliation.truthy)) ∧
    (sumCounts (files.foldl processFile st).stats.affiliation_counts
       = sumCounts st.stats.affiliation_counts
          + (files.filterMap fileAccount).countP (fun a => a.affiliation.truthy)) := by
  induction files generalizing st with
  | nil => simp
  | cons f t ih =>
      obtain ⟨nm, c⟩ := f
      cases c with
      | none =>
          simpa [processFile, fileAccount, List.filterMap_cons] using
            ih (processFile st ⟨nm, none⟩)
      | some raw =>
          cases hm : mkAccount raw with
          | none =>
              simpa [processFile, fileAccount, hm, List.filterMap_cons] using
                ih (processFile st ⟨nm, some raw⟩)
          | some a =>
              rw [List.foldl_cons]
              have h := ih (processFile st ⟨nm, some raw⟩)
              have hst : (processFile st ⟨nm, some raw⟩).stats = statsStep st.stats raw a := by
                simp [processFile, hm]
              have hfa : fileAccount ⟨nm, some raw⟩ = some a := by
                simp [fileAccount, hm]
              rw [hst] at h
              have hs := statsStep_totals st.stats raw a
              simp only [hfa, List.filterMap_cons, List.length_cons, List.countP_cons]
              by_cases hb : a.affiliation.truthy <;>
                simp only [hb, if_pos, if_neg, Bool.not_true, Bool.not_false, decide_True,
                  decide_False, Bool.false_eq_true, if_true, if_false] at * <;>
                omega

theorem inferStep_props (s : Stats) (a : AccountBasic) :
    ((inferStep s a).totals.affiliated + (inferStep s a).totals.independent
       = s.totals.affiliated + s.totals.independent + 1) ∧
    (inferStep s a).totals.accounts = s.totals.accounts ∧
    (inferStep s a).affiliation_counts = s.affiliation_counts ∧
    (inferStep s a).url_host_counts = s.url_host_counts ∧
    (inferStep s a).followers = s.followers := by
  simp only [inferStep]
  split_ifs <;> simp <;> omega

theorem foldl_inferStep_props (l : List AccountBasic) (s : Stats) :
    ((l.foldl inferStep s).totals.affiliated + (l.foldl inferStep s).totals.independent
       = s.totals.affiliated + s.totals.independent + l.length) ∧
    (l.foldl inferStep s).totals.accounts = s.totals.accounts ∧
    (l.foldl inferStep s).affiliation_counts = s.affiliation_counts ∧
    (l.foldl inferStep s).url_host_counts = s.url_host_counts ∧
    (l.foldl inferStep s).followers = s.followers := by
  induction l generalizing s with
  | nil => simp
  | cons a t ih =>
      rw [List.foldl_cons]
      have h := ih (inferStep s a)
      have hp := inferStep_props s a
      refine ⟨?_, ?_, ?_, ?_, ?_⟩
      · rw [h.1, hp.1]; simp; omega
      · rw [h.2.1, hp.2.1]
      · rw [h.2.2.1, hp.2.2.1]
      · rw [h.2.2.2.1, hp.2.2.2.1]
      · rw [h.2.2.2.2, hp.2.2.2.2]

theorem inferStats_props (s : Stats) (accounts : List AccountBasic) :
    ((s.totals.affiliated + s.totals.independent = s.totals.accounts) →
       ((inferStats s accounts).totals.affiliated + (inferStats s accounts).totals.independent
          = (inferStats s accounts).totals.accounts)) ∧
    ((s.totals.affiliated + s.totals.independent = s.totals.accounts) →
       (s.totals.accounts = 0 → (inferStats s accounts).totals.accounts = accounts.length)) ∧
    (inferStats s accounts).affiliation_counts = s.affiliation_counts ∧
    (inferStats s accounts).url_host_counts = s.url_host_counts ∧
    (inferStats s accounts).followers = s.followers := by
  unfold inferStats
  by_cases h : s.totals.accounts = 0 ∧ accounts.length ≠ 0
  · rw [if_pos h]
    have hf := foldl_inferStep_props accounts
      { s with totals := { s.totals with accounts := accounts.length } }
    refine ⟨fun hsum => ?_, fun _ _ => ?_, hf.2.2.1, hf.2.2.2.1, hf.2.2.2.2⟩
    · rw [hf.1, hf.2.1]
      simp only []
      omega
    · exact hf.2.1
  · rw [if_neg h]
    refine ⟨fun hs => hs, fun hsum h0 => ?_, rfl, rfl, rfl⟩
    omega

/-! ## Properties of the top-N extraction -/

theorem length_topN (m : List (String × Nat)) : (topN m).length ≤ 20 := by
  simp only [topN, List.length_take]
  omega

theorem sorted_topN (m : List (String × Nat)) :
    (topN m).Pairwise (fun x y => y.2 ≤ x.2) := by
  have hs : ((jsEntries m).insertionSort countGe).Sorted countGe :=
    List.sorted_insertionSort countGe (jsEntries m)
  exact List.Pairwise.sublist (List.take_sublist 20 _) hs

theorem filter_orderedInsert_eqKey (a : String × Nat) (l : List (String × Nat)) :
    (l.orderedInsert countGe a).filter (fun e => e.2 == a.2)
      = a :: l.filter (fun e => e.2 == a.2) := by
  induction l with
  | nil => simp [List.orderedInsert]
  | cons b t ih =>
      rw [List.orderedInsert]
      by_cases h : countGe a b
      · rw [if_pos h]
        simp [List.filter_cons]
      · rw [if_neg h]
        simp only [countGe] at h
        have hb : (b.2 == a.2) = false := by
          have : b.2 ≠ a.2 := by omega
          simpa using this
        simp [List.filter_cons, hb, ih]

theorem filter_orderedInsert_neKey (a : String × Nat) (c : Nat) (hc : a.2 ≠ c)
    (l : List (String × Nat)) :
    (l.orderedInsert countGe a).filter (fun e => e.2 == c)
      = l.filter (fun e => e.2 == c) := by
  induction l with
  | nil => simp [List.orderedInsert, hc]
  | cons b t ih =>
      rw [List.orderedInsert]
      by_cases h : countGe a b
      · rw [if_pos h]
        simp [List.filter_cons, hc]
      · rw [if_neg h]
        simp [List.filter_cons, ih]

theorem filter_insertionSort_key (m : List (String × Nat)) (c : Nat) :
    (m.insertionSort countGe).filter (fun e => e.2 == c)
      = m.filter (fun e => e.2 == c) := by
  induction m with
  | nil => simp
  | cons a t ih =>
      rw [List.insertionSort]
      by_cases h : a.2 = c
      · subst h
        rw [filter_orderedInsert_eqKey]
        simp [List.filter_cons, ih]
      · rw [filter_orderedInsert_neKey a c h]
        simp [List.filter_cons, ih, h]

theorem topN_stable (m : List (String × Nat)) (c : Nat) :
    ∃ rest, (topN m).filter (fun e => e.2 == c) ++ rest
      = (jsEntries m).filter (fun e => e.2 == c) := by
  refine ⟨(((jsEntries m).insertionSort countGe).drop 20).filter (fun e => e.2 == c), ?_⟩
  rw [topN, ← List.filter_append, List.take_append_drop, filter_insertionSort_key]

/-! ## Properties of the followers summary -/

instance : Std.Antisymm (fun (x y : Int) => x ≤ y) :=
  ⟨fun {_ _} h1 h2 => le_antisymm h1 h2⟩

theorem head?_sortedSamples (l : List Int) : (sortedSamples l).head? = l.min? := by
  rcases hs : sortedSamples l with _ | ⟨a, t⟩
  · have : l = [] := by
      have hp := List.perm_insertionSort (α := Int) (· ≤ ·) l
      rw [sortedSamples] at hs
      rw [hs] at hp
      exact hp.symm.eq_nil
    subst this
    simp
  · have hp : (a :: t).Perm l := by
      have := List.perm_insertionSort (α := Int) (· ≤ ·) l
      rw [sortedSamples] at hs
      rwa [hs] at this
    have hsort : (a :: t).Sorted (· ≤ ·) := by
      have := List.sorted_insertionSort (α := Int) (· ≤ ·) l
      rw [sortedSamples] at hs
      rwa [hs] at this
    have hmem : a ∈ l := hp.mem_iff.mp (List.mem_cons_self a t)
    have hub : ∀ b ∈ l, a ≤ b := by
      intro b hb
      rcases List.mem_cons.mp (hp.mem_iff.mpr hb) with rfl | hb'
      · exact le_refl b
      · exact List.rel_of_sorted_cons hsort b hb'
    have : l.min? = some a :=
      (List.min?_eq_some_iff (fun x => le_refl x) (fun x y => min_choice x y)
        (fun x y z => le_min_iff)).mpr ⟨hmem, hub⟩
    simp [this]

theorem le_getLast_of_sorted :
    ∀ (l : List Int), l.Sorted (· ≤ ·) → ∀ (hne : l ≠ []) (b : Int), b ∈ l → b ≤ l.getLast hne := by
  intro l
  induction l with
  | nil => intro _ hne; exact absurd rfl hne
  | cons a t ih =>
      intro hl hne b hb
      cases t with
      | nil =>
          rcases List.mem_cons.mp hb with rfl | hb'
          · simp [List.getLast]
          · cases hb'
      | cons c u =>
          rw [List.getLast_cons (by simp : (c :: u) ≠ [])]
          rcases List.mem_cons.mp hb with rfl | hb'
          · exact List.rel_of_sorted_cons hl _ (List.getLast_mem (by simp))
          · exact ih hl.of_cons (by simp) b hb'

theorem getLast?_sortedSamples (l : List Int) : (sortedSamples l).getLast? = l.max? := by
  rcases hs : sortedSamples l with _ | ⟨a, t⟩
  · have : l = [] := by
      have hp := List.perm_insertionSort (α := Int) (· ≤ ·) l
      rw [sortedSamples] at hs
      rw [hs] at hp
      exact hp.symm.eq_nil
    subst this
    simp
  · have hp : (a :: t).Perm l := by
      have := List.perm_insertionSort (α := Int) (· ≤ ·) l
      rw [sortedSamples] at hs
      rwa [hs] at this
    have hsort : (a :: t).Sorted (· ≤ ·) := by
      have := List.sorted_insertionSort (α := Int) (· ≤ ·) l
      rw [sortedSamples] at hs
      rwa [hs] at this
    have hne : (a :: t) ≠ [] := by simp
    have hmem : (a :: t).getLast hne ∈ l := hp.mem_iff.mp (List.getLast_mem hne)
    have hub : ∀ b ∈ l, b ≤ (a :: t).getLast hne := fun b hb =>
      le_getLast_of_sorted (a :: t) hsort hne b (hp.mem_iff.mpr hb)
    have : l.max? = some ((a :: t).getLast hne) :=
      (List.max?_eq_some_iff (fun x => le_refl x) (fun x y => max_choice x y)
        (fun x y z => max_le_iff)).mpr ⟨hmem, hub⟩
    rw [this, List.getLast?_eq_getLast (a :: t) hne]

theorem sum_sortedSamples (l : List Int) : (sortedSamples l).foldl (· + ·) 0 = l.sum := by
  rw [← List.sum_eq_foldl]
  exact (List.perm_insertionSort (α := Int) (· ≤ ·) l).sum_eq

theorem finalizeFollowers_eq_spec (l : List Int) :
    finalizeFollowers l = specFollowersSummary l := by
  by_cases h : l = []
  · subst h
    simp [finalizeFollowers, specFollowersSummary]
  · have hlen : ¬ l.length = 0 := by simpa [List.length_eq_zero] using h
    rw [finalizeFollowers, specFollowersSummary, if_neg hlen, if_neg h]
    simp only [head?_sortedSamples, getLast?_sortedSamples, sum_sortedSamples]

/-! ## Projections of `buildWebsite` -/

theorem buildWebsite_stats (files : List InputFile) (ex : Option Json) (today : String) :
    (buildWebsite files ex today).stats
      = finalizeStats
          (inferStats (files.foldl processFile initState).stats
            (if (files.foldl processFile initState).accounts.isEmpty then fallbackAccounts ex
             else (files.foldl processFile initState).accounts))
          (files.foldl processFile initState).samples := rfl

theorem buildWebsite_accounts (files : List InputFile) (ex : Option Json) (today : String) :
    (buildWebsite files ex today).accounts
      = (if (files.foldl processFile initState).accounts.isEmpty then fallbackAccounts ex
         else (files.foldl processFile initState).accounts) := rfl

theorem buildWebsite_diags (files : List InputFile) (ex : Option Json) (today : String) :
    (buildWebsite files ex today).diags = (files.foldl processFile initState).diags := rfl

theorem finalizeStats_totals (s : Stats) (samples : List Int) :
    (finalizeStats s samples).totals = s.totals := rfl

theorem finalizeStats_followers (s : Stats) (samples : List Int) :
    (finalizeStats s samples).followers = finalizeFollowers samples := rfl

theorem finalizeStats_affiliation_counts (s : Stats) (samples : List Int) :
    (finalizeStats s samples).affiliation_counts = s.affiliation_counts := rfl

theorem finalizeStats_url_host_counts (s : Stats) (samples : List Int) :
    (finalizeStats s samples).url_host_counts = s.url_host_counts := rfl

theorem finalizeStats_top_affiliations (s : Stats) (samples : List Int) :
    (finalizeStats s samples).top_affiliations = topN s.affiliation_counts := rfl

theorem finalizeStats_top_url_hosts (s : Stats) (samples : List Int) :
    (finalizeStats s samples).top_url_hosts = topN s.url_host_counts := rfl

theorem inferStats_of_ne (s : Stats) (accounts : List AccountBasic)
    (h : ¬(s.totals.accounts = 0 ∧ accounts.length ≠ 0)) : inferStats s accounts = s := by
  rw [inferStats, if_neg h]

/-! ## Claim theorems -/

/-- C1: for every input set, the emitted statistics satisfy
`affiliated + independent = accounts`, and the `accounts` total counts
exactly the records of the final listing (each record contributed one
increment to the total and one to exactly one of the two counters). -/
theorem affiliated_add_independent_eq_total (files : List InputFile) (ex : Option Json)
    (today : String) :
    (buildWebsite files ex today).stats.totals.affiliated
        + (buildWebsite files ex today).stats.totals.independent
      = (buildWebsite files ex today).stats.totals.accounts ∧
    (buildWebsite files ex today).stats.totals.accounts
      = (buildWebsite files ex today).accounts.length := by
  rw [buildWebsite_stats, buildWebsite_accounts, finalizeStats_totals]
  set st := files.foldl processFile initState with hst
  set accounts := if st.accounts.isEmpty then fallbackAccounts ex else st.accounts with hacc
  have hfold := foldl_processFile_stats files initState
  have haccs := foldl_processFile_accounts files initState
  rw [← hst] at hfold haccs
  simp only [initState, initStats, List.nil_append] at hfold haccs
  have hcount : (files.filterMap fileAccount).countP (fun a => a.affiliation.truthy)
      + (files.filterMap fileAccount).countP (fun a => !a.affiliation.truthy)
      = (files.filterMap fileAccount).length := by
    simpa using (List.length_eq_countP_add_countP (fun a => a.affiliation.truthy)
      (l := files.filterMap fileAccount)).symm
  have hsum : st.stats.totals.affiliated + st.stats.totals.independent
      = st.stats.totals.accounts := by
    rw [hfold.1, hfold.2.1, hfold.2.2.1]
    omega
  have hip := inferStats_props st.stats accounts
  refine ⟨hip.1 hsum, ?_⟩
  by_cases hc : st.stats.totals.accounts = 0 ∧ accounts.length ≠ 0
  · exact hip.2.1 hsum hc.1
  · rw [inferStats_of_ne _ _ hc]
    by_cases he : st.accounts.isEmpty
    · have h1 : files.filterMap fileAccount = [] := by
        rw [← haccs]
        exact List.isEmpty_iff.mp he
      have h0 : st.stats.totals.accounts = 0 := by rw [hfold.1, h1]; simp
      omega
    · have ha2 : accounts = st.accounts := by rw [hacc, if_neg he]
      have hlen : st.accounts.length = (files.filterMap fileAccount).length := by rw [haccs]
      rw [ha2]
      omega

/-- C2 (amended): the aggregator classifies a record as affiliated —
incrementing the affiliated total and exactly one affiliation-label
bucket (so the bucket counts sum to the affiliated total) — if and only
if its `affiliation` value is truthy in the JS sense (not `null`,
missing, `false`, `0` or `""`); every other record increments the
independent total.  In particular an empty object or array is truthy
and counts as affiliated even though it is structurally empty. -/
theorem affiliated_iff_truthy (files : List InputFile) :
    ((files.foldl processFile initState).stats.totals.affiliated
       = (files.foldl processFile initState).accounts.countP
           (fun a => a.affiliation.truthy)) ∧
    ((files.foldl processFile initState).stats.totals.independent
       = (files.foldl processFile initState).accounts.countP
           (fun a => !a.affiliation.truthy)) ∧
    (sumCounts (files.foldl processFile initState).stats.affiliation_counts
       = (files.foldl processFile initState).stats.totals.affiliated) := by
  set st := files.foldl processFile initState with hst
  have hfold := foldl_processFile_stats files initState
  have haccs := foldl_processFile_accounts files initState
  rw [← hst] at hfold haccs
  simp only [initState, initStats, List.nil_append] at hfold haccs
  have hz : sumCounts ([] : List (String × Nat)) = 0 := by simp [sumCounts]
  rw [hz] at hfold
  rw [haccs]
  exact ⟨by omega, by omega, by omega⟩

/-- C2 counterexample: a record whose `affiliation` is the empty object
`{}` is non-null but structurally empty, yet the build classifies it as
affiliated (bucketed under "unknown") rather than independent,
refuting the claimed iff. -/
theorem empty_object_affiliation_counted_affiliated :
    structurallyNonEmpty (Json.obj []) = false ∧
    (buildWebsite [⟨"a.json", some (.obj [("username", .str "bob"), ("affiliation", .obj [])])⟩]
        none "d").stats.totals.affiliated = 1 ∧
    (buildWebsite [⟨"a.json", some (.obj [("username", .str "bob"), ("affiliation", .obj [])])⟩]
        none "d").stats.totals.independent = 0 ∧
    (buildWebsite [⟨"a.json", some (.obj [("username", .str "bob"), ("affiliation", .obj [])])⟩]
        none "d").stats.affiliation_counts = [("unknown", 1)] := by
  decide

/-- C3: the followers summary is computed over exactly the records whose
follower-count metric is a number (all numbers of the `Json` model are
finite), and equals the spec's summary — count, min, max, arithmetic
mean, and the median of the sorted sample (average of the two central
values for even length, the central value for odd length); in
particular samples `[10, 20, 30]` give median 20 and mean 20, and
`[10, 20]` give median 15. -/
theorem followers_summary_matches_spec :
    (∀ (files : List InputFile) (ex : Option Json) (today : String),
        (buildWebsite files ex today).stats.followers
          = specFollowersSummary (files.filterMap fileSample)) ∧
    (buildWebsite [⟨"a", some (.obj [("username", .str "u1"), ("public_metrics", .obj [("followers_count", .num 10)])])⟩,
                   ⟨"b", some (.obj [("username", .str "u2"), ("public_metrics", .obj [("followers_count", .num 20)])])⟩,
                   ⟨"c", some (.obj [("username", .str "u3"), ("public_metrics", .obj [("followers_count", .num 30)])])⟩]
        none "d").stats.followers
      = { count_available := 3, min := some 10, max := some 30,
          average := some 20, median := some 20 } ∧
    (buildWebsite [⟨"a", some (.obj [("username", .str "u1"), ("public_metrics", .obj [("followers_count", .num 10)])])⟩,
                   ⟨"b", some (.obj [("username", .str "u2"), ("public_metrics", .obj [("followers_count", .num 20)])])⟩]
        none "d").stats.followers
      = { count_available := 2, min := some 10, max := some 20,
          average := some 15, median := some 15 } := by
  have hgen : ∀ (files : List InputFile) (ex : Option Json) (today : String),
      (buildWebsite files ex today).stats.followers
        = specFollowersSummary (files.filterMap fileSample) := by
    intro files ex today
    rw [buildWebsite_stats, finalizeStats_followers, finalizeFollowers_eq_spec]
    rw [foldl_processFile_samples files initState]
    simp [initState]
  refine ⟨hgen, ?_, ?_⟩
  · rw [hgen]
    have h1 : List.filterMap fileSample
        [(⟨"a", some (.obj [("username", .str "u1"), ("public_metrics", .obj [("followers_count", .num 10)])])⟩ : InputFile),
         ⟨"b", some (.obj [("username", .str "u2"), ("public_metrics", .obj [("followers_count", .num 20)])])⟩,
         ⟨"c", some (.obj [("username", .str "u3"), ("public_metrics", .obj [("followers_count", .num 30)])])⟩]
        = [10, 20, 30] := by decide
    rw [h1, specFollowersSummary, if_neg (by decide)]
    have hs : sortedSamples [10, 20, 30] = [10, 20, 30] := by decide
    simp only [hs, FollowersSummary.mk.injEq]
    refine ⟨by decide, by decide, by decide, ?_, ?_⟩
    · have h60 : ([10, 20, 30] : List Int).sum = 60 := by decide
      rw [h60]
      norm_num
    · norm_num
  · rw [hgen]
    have h1 : List.filterMap fileSample
        [(⟨"a", some (.obj [("username", .str "u1"), ("public_metrics", .obj [("followers_count", .num 10)])])⟩ : InputFile),
         ⟨"b", some (.obj [("username", .str "u2"), ("public_metrics", .obj [("followers_count", .num 20)])])⟩]
        = [10, 20] := by decide
    rw [h1, specFollowersSummary, if_neg (by decide)]
    have hs : sortedSamples [10, 20] = [10, 20] := by decide
    simp only [hs, FollowersSummary.mk.injEq]
    refine ⟨by decide, by decide, by decide, ?_, ?_⟩
    · have h30 : ([10, 20] : List Int).sum = 30 := by decide
      rw [h30]
      norm_num
    · norm_num

/-- C4 (amended): both top lists contain at most 20 entries and are
ordered by non-increasing count; for equal counts they preserve not the
first-encounter order but the `Object.entries` enumeration order of the
counter map — canonical array-index labels hoisted first in ascending
numeric order, then the remaining labels in the order first encountered
during accumulation (the restriction of each top list to any count
value is an initial segment of the enumerated entries carrying that
count). -/
theorem top_lists_bounded_sorted_enum_stable (files : List InputFile) (ex : Option Json)
    (today : String) :
    ((buildWebsite files ex today).stats.top_affiliations.length ≤ 20 ∧
     (buildWebsite files ex today).stats.top_affiliations.Pairwise (fun x y => y.2 ≤ x.2) ∧
     ∀ c, ∃ rest,
       (buildWebsite files ex today).stats.top_affiliations.filter (fun e => e.2 == c) ++ rest
         = (jsEntries ((buildWebsite files ex today).stats.affiliation_counts)).filter
             (fun e => e.2 == c)) ∧
    ((buildWebsite files ex today).stats.top_url_hosts.length ≤ 20 ∧
     (buildWebsite files ex today).stats.top_url_hosts.Pairwise (fun x y => y.2 ≤ x.2) ∧
     ∀ c, ∃ rest,
       (buildWebsite files ex today).stats.top_url_hosts.filter (fun e => e.2 == c) ++ rest
         = (jsEntries ((buildWebsite files ex today).stats.url_host_counts)).filter
             (fun e => e.2 == c)) := by
  have ha : (buildWebsite files ex today).stats.top_affiliations
      = topN ((buildWebsite files ex today).stats.affiliation_counts) := by
    rw [buildWebsite_stats, finalizeStats_top_affiliations, finalizeStats_affiliation_counts]
  have hh : (buildWebsite files ex today).stats.top_url_hosts
      = topN ((buildWebsite files ex today).stats.url_host_counts) := by
    rw [buildWebsite_stats, finalizeStats_top_url_hosts, finalizeStats_url_host_counts]
  rw [ha, hh]
  exact ⟨⟨length_topN _, sorted_topN _, fun c => topN_stable _ c⟩,
         ⟨length_topN _, sorted_topN _, fun c => topN_stable _ c⟩⟩

/-- C4 counterexample: two affiliation labels with equal counts,
`"zeta"` encountered first and the canonical array-index label `"42"`
second: `Object.entries` hoists `"42"` ahead of the insertion order
before the stable sort runs, so the top list carries `"42"` before
`"zeta"` — the tie does not preserve first-encounter order. -/
theorem numeric_label_hoisted_in_top_list :
    (buildWebsite
        [⟨"a", some (.obj [("username", .str "u1"),
            ("affiliation", .obj [("description", .str "zeta")])])⟩,
         ⟨"b", some (.obj [("username", .str "u2"),
            ("affiliation", .obj [("description", .str "42")])])⟩]
        none "d").stats.affiliation_counts = [("zeta", 1), ("42", 1)] ∧
    (buildWebsite
        [⟨"a", some (.obj [("username", .str "u1"),
            ("affiliation", .obj [("description", .str "zeta")])])⟩,
         ⟨"b", some (.obj [("username", .str "u2"),
            ("affiliation", .obj [("description", .str "42")])])⟩]
        none "d").stats.top_affiliations = [("42", 1), ("zeta", 1)] := by
  decide

/-- C5 (amended): the combined listing is not keyed by identifier:
whenever at least one input file is valid, it contains exactly one entry
per valid file, in file order.  Two files whose identifiers agree up to
letter case therefore both remain in the listing, each carrying its own
file's field values; the later file does not overwrite the earlier
one's listing entry. -/
theorem listing_keeps_duplicate_identifiers (files : List InputFile) (ex : Option Json)
    (today : String) (h : files.filterMap fileAccount ≠ []) :
    (buildWebsite files ex today).accounts = files.filterMap fileAccount := by
  rw [buildWebsite_accounts]
  set st := files.foldl processFile initState with hst
  have haccs := foldl_processFile_accounts files initState
  rw [← hst] at haccs
  simp only [initState, List.nil_append] at haccs
  rw [haccs]
  have hne : ¬ ((files.filterMap fileAccount).isEmpty = true) := by
    simpa [List.isEmpty_iff] using h
  rw [if_neg hne]

/-- C5 witness: two files with identifiers `Alice` and `alice` — at
least one valid file, so the theorem applies. -/
theorem listing_keeps_duplicate_identifiers_witness :
    (buildWebsite [⟨"a.json", some (.obj [("username", .str "Alice"), ("name", .str "A1")])⟩,
                   ⟨"b.json", some (.obj [("username", .str "alice"), ("name", .str "A2")])⟩]
        none "d").accounts
      = List.filterMap fileAccount
          [⟨"a.json", some (.obj [("username", .str "Alice"), ("name", .str "A1")])⟩,
           ⟨"b.json", some (.obj [("username", .str "alice"), ("name", .str "A2")])⟩] :=
  listing_keeps_duplicate_identifiers _ none "d" (by decide)

/-- C5 counterexample: two files whose identifiers differ only by case
both land in the combined listing — it does not contain exactly one
entry for that identifier. -/
theorem duplicate_identifier_not_collapsed :
    ((buildWebsite [⟨"a.json", some (.obj [("username", .str "Alice"), ("name", .str "A1")])⟩,
                    ⟨"b.json", some (.obj [("username", .str "alice"), ("name", .str "A2")])⟩]
        none "d").accounts.countP (fun a => toLowerStr a.username == "alice") = 2) ∧
    ¬ ((buildWebsite [⟨"a.json", some (.obj [("username", .str "Alice"), ("name", .str "A1")])⟩,
                      ⟨"b.json", some (.obj [("username", .str "alice"), ("name", .str "A2")])⟩]
        none "d").accounts.countP (fun a => toLowerStr a.username == "alice") = 1) := by
  decide

/-- C6 (amended): each per-entity detail artifact is a byte-for-byte
copy of the record's source file, keyed by the record's username, and
re-reading the artifact and re-applying the loader's extraction yields
exactly the in-memory record.  (The parsed artifact's raw fields need
not equal the record's fields where normalization or defaulting
applied — see the counterexample.) -/
theorem detail_artifact_reload_roundtrip (files : List InputFile) :
    List.Forall₂ (fun (w : String × Json) (a : AccountBasic) =>
        w.1 = a.username ∧ mkAccount w.2 = some a)
      (files.foldl processFile initState).writes
      (files.foldl processFile initState).accounts := by
  have key : ∀ fs : List InputFile,
      List.Forall₂ (fun (w : String × Json) (a : AccountBasic) =>
          w.1 = a.username ∧ mkAccount w.2 = some a)
        (fs.filterMap fileWrite) (fs.filterMap fileAccount) := by
    intro fs
    induction fs with
    | nil => exact List.Forall₂.nil
    | cons f t ih =>
        rw [List.filterMap_cons, List.filterMap_cons]
        obtain ⟨nm, c⟩ := f
        cases c with
        | none => simpa [fileWrite, fileAccount] using ih
        | some raw =>
            cases hm : mkAccount raw with
            | none => simpa [fileWrite, fileAccount, hm] using ih
            | some a =>
                simp only [fileWrite, fileAccount, Option.some_bind, hm, Option.map_some]
                refine List.Forall₂.cons ⟨?_, ?_⟩ ih
                · rfl
                · simpa using hm
  have hw := foldl_processFile_writes files initState
  have ha := foldl_processFile_accounts files initState
  rw [hw, ha]
  simpa [initState] using key files

/-- C6 counterexample: for the input file `{"username": "@bob"}` the
artifact written for the record is the raw file itself, whose parsed
fields (username `"@bob"`, no name/image/bio) do not equal the
in-memory record's normalized and defaulted fields. -/
theorem detail_artifact_fields_differ :
    (buildWebsite [⟨"bob.json", some (.obj [("username", .str "@bob")])⟩] none "d").perAccountWrites
      = [("bob", .obj [("username", .str "@bob")])] ∧
    (buildWebsite [⟨"bob.json", some (.obj [("username", .str "@bob")])⟩] none "d").accounts
      = [{ username := "bob", name := .str "bob",
           image := .str "https://unavatar.io/twitter/bob", bio := .str "Bio for @bob.",
           id := .null, affiliation := .null, subscription_type := .null,
           url := .null, verified := .null }] ∧
    ¬ rawMatchesAccount (.obj [("username", .str "@bob")])
        { username := "bob", name := .str "bob",
          image := .str "https://unavatar.io/twitter/bob", bio := .str "Bio for @bob.",
          id := .null, affiliation := .null, subscription_type := .null,
          url := .null, verified := .null } := by
  decide

/-- C7 (amended): an input file whose identifier is empty or missing
after normalization contributes nothing to the loop state — it is
excluded from the listing, the artifact writes, the statistics and the
diagnostics, and the build continues — but no skip diagnostic is logged
for it (the logged diagnostic exists only for files whose parse
throws). -/
theorem empty_identifier_file_contributes_nothing (st : BuildState) (nm : String) (raw : Json)
    (h : usernameOf raw = "") : processFile st ⟨nm, some raw⟩ = st := by
  simp [processFile, mkAccount, h]

/-- C7 witness: the file `{"username": "@"}` normalizes to an empty
identifier and leaves the loop state untouched. -/
theorem empty_identifier_file_witness :
    usernameOf (.obj [("username", .str "@")]) = "" ∧
    processFile initState ⟨"bad.json", some (.obj [("username", .str "@")])⟩ = initState :=
  ⟨by decide,
   empty_identifier_file_contributes_nothing initState "bad.json" _ (by decide)⟩

/-- C7 counterexample: processing a file whose identifier normalizes to
empty logs no diagnostic at all — the diagnostics list stays empty, so
no "skip diagnostic naming the file" is produced. -/
theorem empty_identifier_file_logs_no_diagnostic :
    (buildWebsite [⟨"bad.json", some (.obj [("username", .str "@")])⟩] none "d").diags = [] := by
  decide

/-- Lower-casing is the last step of `normalizeUsername`, so its output
is a `toLowerStr` fixed point. -/
theorem normalizeUsername_lower (v : Json) :
    toLowerStr (normalizeUsername v) = normalizeUsername v := by
  unfold normalizeUsername
  split_ifs
  · rfl
  · exact toLowerStr_idem _

/-- C8 (amended): the extension's retrieval follows the code's order: a
non-empty cache younger than the freshness window is returned without
attempting any fetch; otherwise the remote listing is fetched and, on
success, returned and cached; on fetch failure a non-empty cache is
returned regardless of its age; the bundled artifact is consulted only
when no cached list exists. -/
theorem getShills_fallback_order (st : ExtState) (now : Nat) (remote : Option Json)
    (bundled : Option Json) :
    ((getShills st now remote bundled).fetchAttempted = false
       ↔ (st.cached ≠ [] ∧ now - st.ts < TTL_MS)) ∧
    ((st.cached = [] ∨ ¬ now - st.ts < TTL_MS) →
       ∀ j, remote = some j →
         (getShills st now remote bundled).usernames = normalizeList j ∧
         (getShills st now remote bundled).state = ⟨normalizeList j, now⟩) ∧
    ((st.cached = [] ∨ ¬ now - st.ts < TTL_MS) → remote = none → st.cached ≠ [] →
       (getShills st now remote bundled).usernames = st.cached) ∧
    (remote = none → st.cached = [] →
       (getShills st now remote bundled).usernames
         = (match bundled with | some j => normalizeList j | none => [])) := by
  unfold getShills
  by_cases hcond : st.cached.length ≠ 0 ∧ now - st.ts < TTL_MS
  · rw [if_pos hcond]
    have hne : st.cached ≠ [] := fun he => hcond.1 (by simp [he])
    refine ⟨by simp [hne, hcond.2], ?_, ?_, ?_⟩
    · rintro (h | h) j hj
      · exact absurd h hne
      · exact absurd hcond.2 h
    · rintro (h | h) _ _
      · exact absurd h hne
      · exact absurd hcond.2 h
    · intro _ hcache
      exact absurd hcache hne
  · rw [if_neg hcond]
    have hnot : ¬ (st.cached ≠ [] ∧ now - st.ts < TTL_MS) := by
      intro ⟨h1, h2⟩
      exact hcond ⟨fun h0 => h1 (List.length_eq_zero.mp h0), h2⟩
    cases remote with
    | some j =>
        refine ⟨by simpa using hnot, ?_, ?_, ?_⟩
        · intro _ j' hj
          injection hj with hj
          subst hj
          exact ⟨rfl, rfl⟩
        · intro _ hn
          cases hn
        · intro hn
          cases hn
    | none =>
        by_cases hc2 : st.cached.length ≠ 0
        · rw [if_pos hc2]
          refine ⟨by simpa using hnot, ?_, ?_, ?_⟩
          · intro _ j hj
            cases hj
          · intro _ _ _
            rfl
          · intro _ hcache
            exact absurd (by simp [hcache] : st.cached.length = 0) hc2
        · rw [if_neg hc2]
          refine ⟨by simpa using hnot, ?_, ?_, ?_⟩
          · intro _ j hj
            cases hj
          · intro _ _ hne'
            have : st.cached = [] := List.length_eq_zero.mp (by omega)
            exact absurd this hne'
          · intro _ _
            rfl

/-- C8 witness: a stale cache (`age = TTL_MS`, not fresh) with a failed
fetch is returned from the second tier. -/
theorem getShills_fallback_order_witness :
    (getShills ⟨["a"], 0⟩ TTL_MS none none).usernames = ["a"] :=
  (getShills_fallback_order ⟨["a"], 0⟩ TTL_MS none none).2.2.1
    (Or.inr (by decide)) rfl (by decide)

/-- C8 counterexample: with a fresh non-empty cache `getShills` does NOT
first fetch the remote listing — no network request is attempted, the
cache is returned and the available remote/bundled data is ignored,
refuting the claimed fetch-first order. -/
theorem fresh_cache_skips_fetch :
    (getShills ⟨["a"], 100⟩ 100 (some (.arr [.str "zzz"]))
        (some (.arr [.str "bbb"]))).fetchAttempted = false ∧
    (getShills ⟨["a"], 100⟩ 100 (some (.arr [.str "zzz"]))
        (some (.arr [.str "bbb"]))).usernames = ["a"] := by
  decide

/-- C9: (i) with a non-empty cached list younger than 5 days `getShills`
returns exactly the cached list without attempting a network request;
(ii) when a fetch is attempted and fails, a non-empty (possibly stale)
cache is returned in preference to the bundled fallback; (iii) the
bundled list is used only when no cached list exists. -/
theorem getShills_cache_behaviour (st : ExtState) (now : Nat) (remote : Option Json)
    (bundled : Option Json) :
    ((st.cached ≠ [] ∧ now - st.ts < TTL_MS) →
       ((getShills st now remote bundled).usernames = st.cached ∧
        (getShills st now remote bundled).fetchAttempted = false)) ∧
    (((getShills st now remote bundled).fetchAttempted = true ∧ remote = none ∧
        st.cached ≠ []) →
       (getShills st now remote bundled).usernames = st.cached) ∧
    ((remote = none ∧ st.cached = []) →
       (getShills st now remote bundled).usernames
         = (match bundled with | some j => normalizeList j | none => [])) := by
  unfold getShills
  by_cases hcond : st.cached.length ≠ 0 ∧ now - st.ts < TTL_MS
  · rw [if_pos hcond]
    refine ⟨fun _ => ⟨rfl, rfl⟩, ?_, ?_⟩
    · intro ⟨hf, _, _⟩
      cases hf
    · intro ⟨_, hcache⟩
      exact absurd hcache (fun he => hcond.1 (by simp [he]))
  · rw [if_neg hcond]
    have hfresh' : ¬ (st.cached ≠ [] ∧ now - st.ts < TTL_MS) := by
      intro ⟨h1, h2⟩
      exact hcond ⟨fun h0 => h1 (List.length_eq_zero.mp h0), h2⟩
    cases remote with
    | some j =>
        refine ⟨fun hfresh => absurd hfresh hfresh', ?_, ?_⟩
        · intro ⟨_, hr, _⟩
          cases hr
        · intro ⟨hr, _⟩
          cases hr
    | none =>
        by_cases hc2 : st.cached.length ≠ 0
        · rw [if_pos hc2]
          refine ⟨fun hfresh => absurd hfresh hfresh', fun _ => rfl, ?_⟩
          · intro ⟨_, hcache⟩
            exact absurd (by simp [hcache] : st.cached.length = 0) hc2
        · rw [if_neg hc2]
          refine ⟨fun hfresh => absurd hfresh hfresh', ?_, fun _ => rfl⟩
          · intro ⟨_, _, hne⟩
            have : st.cached = [] := List.length_eq_zero.mp (by omega)
            exact absurd this hne

/-- C9 witness: a fresh cache entry is returned as-is with no fetch. -/
theorem getShills_cache_behaviour_witness :
    (getShills ⟨["a"], 100⟩ 100 (some (.arr [.str "zzz"])) none).usernames = ["a"] ∧
    (getShills ⟨["a"], 100⟩ 100 (some (.arr [.str "zzz"])) none).fetchAttempted = false :=
  (getShills_cache_behaviour ⟨["a"], 100⟩ 100 (some (.arr [.str "zzz"])) none).1
    ⟨by decide, by decide⟩

/-- C10 (amended): every username produced by `normalizeList` is
non-empty and fully lower-cased, and — per accepted input shape — is
`normalizeUsername` (trim, then strip at most one leading `@`, then
lower-case) of an element of that shape's array: of `a && a.username`
for an entry `a` of the `accounts` array, of an element of the bare
array, or of an element of the `usernames` array; any other shape
yields `[]`.  The normalization does not guarantee the absence of a
leading `@` (a second `@` survives) or of whitespace exposed after
`@`-stripping — see the counterexample. -/
theorem normalizeList_entries (data : Json) :
    (∀ u ∈ normalizeList data, u ≠ "" ∧ toLowerStr u = u) ∧
    ((data.truthy && (data.get "accounts").isArr) = true →
       ∀ u ∈ normalizeList data,
         ∃ v ∈ (data.get "accounts").elems,
           u = normalizeUsername (jsAnd v (v.get "username"))) ∧
    ((data.truthy && (data.get "accounts").isArr) = false → data.isArr = true →
       ∀ u ∈ normalizeList data, ∃ v ∈ data.elems, u = normalizeUsername v) ∧
    ((data.truthy && (data.get "accounts").isArr) = false → data.isArr = false →
       (data.truthy && (data.get "usernames").isArr) = true →
       ∀ u ∈ normalizeList data,
         ∃ v ∈ (data.get "usernames").elems, u = normalizeUsername v) ∧
    ((data.truthy && (data.get "accounts").isArr) = false → data.isArr = false →
       (data.truthy && (data.get "usernames").isArr) = false →
       normalizeList data = []) := by
  have keyA : ∀ (l : List Json) (u : String),
      u ∈ (l.map normalizeUsername).filter (fun s => s ≠ "") →
      u ≠ "" ∧ toLowerStr u = u := by
    intro l u hu
    obtain ⟨hmem, hp⟩ := List.mem_filter.mp hu
    obtain ⟨v, _, hv⟩ := List.mem_map.mp hmem
    refine ⟨by simpa using hp, ?_⟩
    rw [← hv]
    exact normalizeUsername_lower v
  have keyB : ∀ (l : List Json) (u : String),
      u ∈ (l.map normalizeUsername).filter (fun s => s ≠ "") →
      ∃ v ∈ l, u = normalizeUsername v := by
    intro l u hu
    obtain ⟨hmem, _⟩ := List.mem_filter.mp hu
    obtain ⟨v, hvl, hv⟩ := List.mem_map.mp hmem
    exact ⟨v, hvl, hv.symm⟩
  have key2A : ∀ (d : Json) (u : String),
      u ∈ (if d.truthy && (d.get "usernames").isArr then
             ((d.get "usernames").elems.map normalizeUsername).filter (fun s => s ≠ "")
           else []) →
      u ≠ "" ∧ toLowerStr u = u := by
    intro d u hu
    by_cases h2 : (d.truthy && (d.get "usernames").isArr) = true
    · rw [if_pos h2] at hu
      exact keyA _ u hu
    · rw [if_neg h2] at hu
      cases hu
  have key2B : ∀ (d : Json) (u : String),
      u ∈ (if d.truthy && (d.get "usernames").isArr then
             ((d.get "usernames").elems.map normalizeUsername).filter (fun s => s ≠ "")
           else []) →
      (d.truthy && (d.get "usernames").isArr) = true →
      ∃ v ∈ (d.get "usernames").elems, u = normalizeUsername v := by
    intro d u hu h3
    rw [if_pos h3] at hu
    exact keyB _ u hu
  refine ⟨?_, ?_, ?_, ?_, ?_⟩
  · intro u hu
    unfold normalizeList at hu
    by_cases h1 : (data.truthy && (data.get "accounts").isArr) = true
    · rw [if_pos h1] at hu
      exact keyA _ u hu
    · rw [if_neg h1] at hu
      cases data with
      | arr l => exact keyA _ u hu
      | null => exact key2A _ u hu
      | bool b => exact key2A _ u hu
      | num n => exact key2A _ u hu
      | str s => exact key2A _ u hu
      | obj fields => exact key2A _ u hu
  · intro h1 u hu
    unfold normalizeList at hu
    rw [if_pos h1] at hu
    obtain ⟨hmem, _⟩ := List.mem_filter.mp hu
    obtain ⟨w, hw, hwu⟩ := List.mem_map.mp hmem
    obtain ⟨v, hv, hvw⟩ := List.mem_map.mp hw
    exact ⟨v, hv, by rw [← hwu, ← hvw]⟩
  · intro h1 h2 u hu
    unfold normalizeList at hu
    rw [if_neg (by simp [h1])] at hu
    cases data with
    | arr l => exact keyB _ u hu
    | null => exact Bool.noConfusion h2
    | bool b => exact Bool.noConfusion h2
    | num n => exact Bool.noConfusion h2
    | str s => exact Bool.noConfusion h2
    | obj fields => exact Bool.noConfusion h2
  · intro h1 h2 h3 u hu
    unfold normalizeList at hu
    rw [if_neg (by simp [h1])] at hu
    cases data with
    | arr l => exact Bool.noConfusion h2
    | null => exact key2B _ u hu h3
    | bool b => exact key2B _ u hu h3
    | num n => exact key2B _ u hu h3
    | str s => exact key2B _ u hu h3
    | obj fields => exact key2B _ u hu h3
  · intro h1 h2 h3
    unfold normalizeList
    rw [if_neg (by simp [h1])]
    cases data with
    | arr l => exact Bool.noConfusion h2
    | null => exact if_neg (by simp [h3])
    | bool b => exact if_neg (by simp [h3])
    | num n => exact if_neg (by simp [h3])
    | str s => exact if_neg (by simp [h3])
    | obj fields => exact if_neg (by simp [h3])

/-- C10 witness: the bare array `["@Bob"]` produces the non-empty,
lower-cased username `"bob"`, and `"bob"` is `normalizeUsername` of an
element of that input array. -/
theorem normalizeList_entries_witness :
    ("bob" ≠ "" ∧ toLowerStr "bob" = "bob") ∧
    (∃ v ∈ (Json.arr [.str "@Bob"]).elems, "bob" = normalizeUsername v) :=
  ⟨(normalizeList_entries (.arr [.str "@Bob"])).1 "bob" (by decide),
   (normalizeList_entries (.arr [.str "@Bob"])).2.2.1 (by decide) (by decide) "bob" (by decide)⟩

/-- C10 counterexample: `{"usernames": ["@@Bob", "@ bob"]}` yields
`["@bob", " bob"]`: the first kept username retains a leading `@` and
the second retains leading whitespace (it is not trimmed). -/
theorem normalizeList_keeps_at_and_space :
    normalizeList (.obj [("usernames", .arr [.str "@@Bob", .str "@ bob"])])
      = ["@bob", " bob"] ∧
    startsWithStr "@bob" "@" = true ∧
    trimStr " bob" ≠ " bob" := by
  decide

end Shilld
